import Mathlib

/-!
Verification of the business-registry automation service.

This file shallowly embeds the Rust source (`src/main.rs`, `src/handler.rs`,
`src/config.rs`) into Lean: pure data transformations become Lean functions,
the browser-driving workflows become trace-producing computations over an
abstract page environment, and the retry driver becomes an explicit recursion.
Fallible Rust code (panicking indexing, `unwrap`) is embedded with `Option` /
`Except`.
-/

/-! ## Basic enums (from `handler.rs`) -/

/-- `StatusKey` from `handler.rs`. -/
inductive StatusKey
  | Active
  | Inactive
  | All
deriving DecidableEq, Repr

/-- `RegisterType` from `handler.rs`. -/
inductive RegisterType
  | All
  | Corporations
  | BusinessNames
  | Partnerships
deriving DecidableEq, Repr

/-- `SearchOperator` from `handler.rs`. -/
inductive SearchOperator
  | On
  | Before
  | FromOrOn
  | Between
deriving DecidableEq, Repr

/-- The serde serialization name of a `StatusKey`
(`rename(serialize = "-- All Statuses --")` on `All`). -/
def StatusKey.serdeName : StatusKey → String
  | .Active => "Active"
  | .Inactive => "Inactive"
  | .All => "-- All Statuses --"

/-- The serde serialization name of a `RegisterType`
(`rename(serialize = "-- All Registers --")` on `All`,
`rename = "Business Names"` on `BusinessNames`). -/
def RegisterType.serdeName : RegisterType → String
  | .All => "-- All Registers --"
  | .Corporations => "Corporations"
  | .BusinessNames => "Business Names"
  | .Partnerships => "Partnerships"

/-- The serde serialization name of a `SearchOperator`
(`rename = "From or On"` on `FromOrOn`). -/
def SearchOperator.serdeName : SearchOperator → String
  | .On => "On"
  | .Before => "Before"
  | .FromOrOn => "From or On"
  | .Between => "Between"

/-- `serde_json::to_string(&x).unwrap().trim_matches('"')` applied to an
`Option<RegisterType>`: `None` serializes to `null` (no quotes to trim). -/
def registerKeyOptionSerde : Option RegisterType → String
  | none => "null"
  | some rt => rt.serdeName

/-! ## Bearer-token middleware (`auth` in `main.rs`) -/

/-- Result of routing one request through the `auth` middleware: either the
handler runs and produces its value, or the middleware rejects with a status
code (401). -/
inductive AuthRouted (α : Type) where
  | response (a : α)
  | rejected (status : Nat)
deriving DecidableEq, Repr

/-- The `auth` middleware from `main.rs`: reads the `Authorization` header
(`none` models both an absent header and a non-UTF-8 value, which
`to_str().ok()` maps to `None`), compares it for exact equality with
`CONFIG.token`, and either lets the handler run or returns 401. -/
def auth (token : String) (authHeader : Option String) (handler : α) : AuthRouted α :=
  match authHeader with
  | some h => if h = token then .response handler else .rejected 401
  | none => .rejected 401

/-! ## `SearchBusinessRegistryParams` validation (`TryFrom` in `handler.rs`) -/

/-- The `"-- Any type --"` sentinel that heads every allowed business-type
list in `handler.rs`. -/
def anyTypeSentinel : String := "-- Any type --"

/-- `SearchBusinessRegistryParamsShadow` from `handler.rs`. Date fields are
carried as the validated strings of `DateInput`. -/
structure SearchBusinessRegistryParamsShadow where
  query_word : String
  register_type_key : Option RegisterType
  business_type_selection : Option String
  status_key : Option StatusKey
  date_input : Option String
  search_operator : Option SearchOperator
  end_date : Option String
deriving DecidableEq, Repr

/-- `SearchBusinessRegistryParams` from `handler.rs` (same fields as the
shadow; constructed only through the validating conversion). -/
structure SearchBusinessRegistryParams where
  query_word : String
  register_type_key : Option RegisterType
  business_type_selection : Option String
  status_key : Option StatusKey
  date_input : Option String
  search_operator : Option SearchOperator
  end_date : Option String
deriving DecidableEq, Repr

/-- The `register_to_business_type_map` of the `TryFrom` impl in `handler.rs`:
the map holds the three non-`All` register types, each mapped to a literal
list whose first entry is `"-- Any type --"`. The remaining literal entries
are redacted in the source; `redacted` stands for them, and every theorem
below quantifies over it. -/
def registerToBusinessTypeMap (redacted : RegisterType → List String) :
    RegisterType → Option (List String)
  | .All => none
  | .Corporations => some (anyTypeSentinel :: redacted .Corporations)
  | .BusinessNames => some (anyTypeSentinel :: redacted .BusinessNames)
  | .Partnerships => some (anyTypeSentinel :: redacted .Partnerships)

/-- The validation block of the `TryFrom` impl in `handler.rs` (the
`match value.register_type_key` statement that may early-return an error):
when the register type is a specific non-`All` value and a business-type
selection is present, the selection must be the sentinel or a member of that
register type's allowed list, else it fails with the validation message. -/
def businessTypeCheck (redacted : RegisterType → List String)
    (value : SearchBusinessRegistryParamsShadow) : Except String Unit :=
  match value.register_type_key with
  | some .All | none => .ok ()
  | some rt =>
    match registerToBusinessTypeMap redacted rt with
    | some business_types =>
      match value.business_type_selection with
      | some business_type =>
        if business_type ≠ anyTypeSentinel ∧ ¬ business_type ∈ business_types then
          .error ("Invalid business type for register type '\"" ++ rt.serdeName
            ++ "\"', must be one of " ++ String.intercalate ", " business_types)
        else
          .ok ()
      | none => .ok ()
    | none => .ok ()

/-- `TryFrom<SearchBusinessRegistryParamsShadow> for SearchBusinessRegistryParams`
from `handler.rs`: run the validation block, then build the params from the
shadow's fields. -/
def SearchBusinessRegistryParams.tryFrom (redacted : RegisterType → List String)
    (value : SearchBusinessRegistryParamsShadow) :
    Except String SearchBusinessRegistryParams :=
  match businessTypeCheck redacted value with
  | .error e => .error e
  | .ok () =>
    .ok { query_word := value.query_word
          register_type_key := value.register_type_key
          business_type_selection := value.business_type_selection
          status_key := value.status_key
          date_input := value.date_input
          search_operator := value.search_operator
          end_date := value.end_date }

/-! ## Listing-row parsing (inner loop of `Scrap::extract_data`) -/

/-- One raw result row of the legacy listing page, as the selectors in
`Scrap::extract_data` see it: the inner HTML of the `<a>` inside the first
`<span>` (absent when the row has no such anchor, which panics in the
source), and the inner HTML of every `<span>` of the row in order. -/
structure ListingRawRow where
  anchorText : Option String
  spans : List String
deriving DecidableEq, Repr

/-- Structural split of a character list at every occurrence of `sep`,
mirroring Rust's `str::split(char)`: always returns at least one (possibly
empty) piece, with empty pieces kept between adjacent separators. -/
def splitOnChar (sep : Char) : List Char → List (List Char)
  | [] => [[]]
  | c :: cs =>
    match splitOnChar sep cs with
    | [] => [[]]
    | piece :: rest =>
      if c = sep then [] :: piece :: rest else (c :: piece) :: rest

/-- Rust `s.split(sep)` on a string, as a list of pieces. -/
def splitChar (s : String) (sep : Char) : List String :=
  (splitOnChar sep s.data).map (fun cs => ⟨cs⟩)

/-- Rust `str::trim` on a character list: drop whitespace from both ends. -/
def trimCharList (l : List Char) : List Char :=
  ((l.dropWhile Char.isWhitespace).reverse.dropWhile Char.isWhitespace).reverse

/-- Rust `str::trim` on a string. -/
def rustTrim (s : String) : String :=
  ⟨trimCharList s.data⟩

/-- `s.split(sep).nth(n)`: `none` models the `unwrap` panic when the piece is
missing. -/
def nthSplit (s : String) (sep : Char) (n : Nat) : Option String :=
  (splitChar s sep).get? n

/-- Rust `.replace('-', "")`: with a single-character pattern and an empty
replacement this removes every `'-'` from the string. -/
def stripHyphens (s : String) : String :=
  ⟨s.data.filter (fun c => c ≠ '-')⟩

/-- One parsed row of `Scrap::extract_data` (the source stores it as a
`HashMap` with these four keys). -/
structure ListingRow where
  business_name : String
  status : String
  corporation_number : String
  business_number : String
deriving DecidableEq, Repr

/-- The per-row body of the `for row in rows` loop in `Scrap::extract_data`:
business name from the anchor, then `split(':').nth(1).unwrap().trim()` for
status / corporation number / business number, with all hyphens removed from
the corporation number. `none` models any of the `unwrap` panics. -/
def parseListingRow (row : ListingRawRow) : Option ListingRow := do
  let business_name ← row.anchorText
  let statusSpan ← row.spans.get? 1
  let status ← nthSplit statusSpan ':' 1
  let corpSpan ← row.spans.get? 2
  let corporation_number ← nthSplit corpSpan ':' 1
  let busSpan ← row.spans.get? 3
  let business_number ← nthSplit busSpan ':' 1
  pure { business_name := business_name
         status := rustTrim status
         corporation_number := stripHyphens (rustTrim corporation_number)
         business_number := rustTrim business_number }

/-- Auxiliary: stripping hyphens leaves no hyphen. -/
theorem stripHyphens_not_mem (s : String) : '-' ∉ (stripHyphens s).data := by
  simp [stripHyphens]

/-- C10: for every route, a request reaches its handler iff the Authorization
header is present and byte-for-byte equal to the configured token; a
conventional Bearer-prefixed value never authorizes (no prefix is stripped),
and every non-matching request is rejected with 401, the handler not invoked. -/
theorem auth_requires_exact_token {α : Type} (token : String)
    (authHeader : Option String) (handler : α) :
    (auth token authHeader handler = .response handler ↔ authHeader = some token)
    ∧ auth token (some ("Bearer " ++ token)) handler = .rejected 401
    ∧ (auth token authHeader handler = .response handler
        ∨ auth token authHeader handler = .rejected 401) := by
  have hne : "Bearer " ++ token ≠ token := by
    intro h
    have hlen := congrArg String.length h
    rw [String.length_append] at hlen
    have h7 : "Bearer ".length = 7 := rfl
    rw [h7] at hlen
    omega
  refine ⟨?_, ?_, ?_⟩
  · constructor
    · intro h
      cases authHeader with
      | none => simp [auth] at h
      | some hv =>
        by_cases hh : hv = token
        · simp [hh]
        · simp [auth, hh] at h
    · rintro rfl
      simp [auth]
  · simp [auth, hne]
  · cases authHeader with
    | none => simp [auth]
    | some hv => by_cases hh : hv = token <;> simp [auth, hh]

/-- Auxiliary: `isOk` on `Except.ok`. -/
theorem exceptOkIsOk {α ε : Type} (a : α) : (Except.ok a : Except ε α).isOk = true := rfl

/-- Auxiliary: an if-then-else producing an error exactly under its condition. -/
theorem iteErrorIsOkFalse {c : Prop} [Decidable c] {e : String} :
    ((if c then (Except.error e : Except String Unit) else Except.ok ()).isOk = false)
      ↔ c := by
  split <;> simp_all [Except.isOk, Except.toBool]

/-- C4: constructing `SearchBusinessRegistryParams` fails exactly when the
register type is a specific non-All value and the business-type selection is
present, differs from the `"-- Any type --"` sentinel, and is not in that
register type's allowed list; every other combination succeeds. -/
theorem tryFrom_fails_iff (redacted : RegisterType → List String)
    (v : SearchBusinessRegistryParamsShadow) :
    (SearchBusinessRegistryParams.tryFrom redacted v).isOk = false ↔
      ∃ rt bt, v.register_type_key = some rt ∧ rt ≠ .All
        ∧ v.business_type_selection = some bt ∧ bt ≠ anyTypeSentinel
        ∧ bt ∉ anyTypeSentinel :: redacted rt := by
  have hbridge : (SearchBusinessRegistryParams.tryFrom redacted v).isOk
      = (businessTypeCheck redacted v).isOk := by
    cases h : businessTypeCheck redacted v with
    | ok u => cases u; simp [SearchBusinessRegistryParams.tryFrom, h, Except.isOk,
        Except.toBool]
    | error e => simp [SearchBusinessRegistryParams.tryFrom, h, Except.isOk,
        Except.toBool]
  rw [hbridge]
  obtain ⟨q, rk, bs, sk, di, so, ed⟩ := v
  cases rk with
  | none => simp [businessTypeCheck, exceptOkIsOk]
  | some rt =>
    cases rt <;> cases bs <;>
      simp [businessTypeCheck, registerToBusinessTypeMap, iteErrorIsOkFalse,
        exceptOkIsOk]

/-- C7: for any listing row that parses successfully, a status span formatted
as `"Status: Active"` yields the status field `"Active"` (label prefix and
whitespace removed), and the parsed corporation number never contains a
hyphen. -/
theorem parseListingRow_status_and_hyphens (row : ListingRawRow) (r : ListingRow)
    (h : parseListingRow row = some r) :
    (row.spans.get? 1 = some "Status: Active" → r.status = "Active")
    ∧ '-' ∉ r.corporation_number.data := by
  simp only [parseListingRow, Option.bind_eq_bind, Option.bind_eq_some,
    Option.pure_def, Option.some.injEq] at h
  obtain ⟨bn, hbn, s1, hs1, st, hst, s2, hs2, cn, hcn, s3, hs3, b3, hb3, hr⟩ := h
  constructor
  · intro hq
    rw [hq] at hs1
    injection hs1 with hs1
    subst hs1
    have hval : nthSplit "Status: Active" ':' 1 = some " Active" := by decide
    rw [hval] at hst
    injection hst with hst
    subst hst
    rw [← hr]
    rfl
  · rw [← hr]
    exact stripHyphens_not_mem _

/-- Concrete listing row used to witness the C7 theorem. -/
def listingRowExample : ListingRawRow :=
  { anchorText := some "ACME WIDGETS INC."
    spans := ["ACME WIDGETS INC.", "Status: Active",
              "Corporation Number: 123-456", "Business Number: 789123456"] }

/-- Parse of the concrete listing row. -/
def listingRowExampleParsed : ListingRow :=
  { business_name := "ACME WIDGETS INC."
    status := "Active"
    corporation_number := "123456"
    business_number := "789123456" }

/-- Witness for C7: the theorem applied at a concrete row. -/
theorem parseListingRow_status_and_hyphens_witness :
    parseListingRow listingRowExample = some listingRowExampleParsed
    ∧ ((listingRowExample.spans.get? 1 = some "Status: Active" →
          listingRowExampleParsed.status = "Active")
        ∧ '-' ∉ listingRowExampleParsed.corporation_number.data) :=
  ⟨by decide, parseListingRow_status_and_hyphens _ _ (by decide)⟩

/-! ## Detail extraction (`CorporationDataExtract` in `handler.rs`) -/

/-- Itertools `.join(sep)` on a list of strings. -/
def joinSep (sep : String) : List String → String
  | [] => ""
  | x :: xs => xs.foldl (fun acc a => acc ++ sep ++ a) x

/-- Itertools `.join("")`: plain concatenation of the pieces. -/
def joinAll (l : List String) : String :=
  joinSep "" l

/-- Structural split of a character list at every occurrence of the
four-character sequence `<br>`, mirroring Rust's `str::split("<br>")`
(leftmost, non-overlapping). -/
def splitOnBr : List Char → List (List Char)
  | [] => [[]]
  | '<' :: 'b' :: 'r' :: '>' :: rest =>
    [] :: splitOnBr rest
  | c :: cs =>
    match splitOnBr cs with
    | [] => [[]]
    | piece :: rest => (c :: piece) :: rest

/-- Rust `s.split("<br>")` on a string, as a list of pieces. -/
def splitBrString (s : String) : List String :=
  (splitOnBr s.data).map (fun cs => ⟨cs⟩)

/-- Whether a character list starts with the `<br>` sequence. -/
def brPrefix : List Char → Bool
  | a :: b :: c :: d :: _ => a = '<' && b = 'b' && c = 'r' && d = '>'
  | _ => false

/-- Whether a character list contains the `<br>` sequence. -/
def containsBr : List Char → Bool
  | [] => false
  | c :: cs => brPrefix (c :: cs) || containsBr cs

/-- One row of the flat header section of the corporation detail page, as the
selectors in `extract_corp_details` see it: the inner HTML of the row's first
`<b>` (the label) and the text fragments of the row's first `div.col-sm-8`
value cell. -/
structure DetailRow where
  label : String
  valueFragments : List String
deriving DecidableEq, Repr

/-- `extract_corp_details` from `handler.rs`, per row: the label is the `<b>`
inner HTML; the value joins the trimmed text fragments of the value cell, and
for the `"Corporate Name"` label only, the joined text is cut at the first
`<br>` sequence (`.split("<br>").next().unwrap()`); both sides are trimmed on
insertion. -/
def extract_corp_details : List DetailRow → List (String × String)
  | [] => []
  | row :: rest =>
    let key := row.label
    let value :=
      if key = "Corporate Name" then
        match splitBrString (joinAll (row.valueFragments.map rustTrim)) with
        | v :: _ => v
        | [] => ""
      else
        joinAll (row.valueFragments.map rustTrim)
    (rustTrim key, rustTrim value) :: extract_corp_details rest

/-- Auxiliary: a `<br>`-prefix survives appending on the right. -/
theorem brPrefix_append (l t : List Char) (h : brPrefix l = true) :
    brPrefix (l ++ t) = true := by
  rcases l with _ | ⟨a, _ | ⟨b, _ | ⟨c, _ | ⟨d, rest⟩⟩⟩⟩ <;> simp_all [brPrefix]

/-- Auxiliary: a list with a `<br>`-prefix starts with the four characters. -/
theorem brPrefix_shape (l : List Char) (h : brPrefix l = true) :
    ∃ t, l = '<' :: 'b' :: 'r' :: '>' :: t := by
  rcases l with _ | ⟨a, _ | ⟨b, _ | ⟨c, _ | ⟨d, rest⟩⟩⟩⟩ <;> simp_all [brPrefix]

/-- Auxiliary: `splitOnBr` is nonempty, its head is `<br>`-free, and the
input is the head, possibly followed by a `<br>` and a remainder. -/
theorem splitOnBr_head (l : List Char) :
    ∃ p rest, splitOnBr l = p :: rest
      ∧ containsBr p = false
      ∧ (l = p ∨ ∃ t, l = p ++ '<' :: 'b' :: 'r' :: '>' :: t) := by
  induction l using splitOnBr.induct with
  | case1 => exact ⟨[], [], rfl, rfl, .inl rfl⟩
  | case2 rest ih =>
    exact ⟨[], splitOnBr rest, rfl, rfl, .inr ⟨rest, rfl⟩⟩
  | case3 c cs hne hempty ih =>
    obtain ⟨p, r, hp, _⟩ := ih
    rw [hempty] at hp
    cases hp
  | case4 c cs hne piece rest hsplit ih =>
    obtain ⟨p, r, hp, hnobr, hrel⟩ := ih
    rw [hsplit] at hp
    injection hp with hp1 hp2
    subst hp1
    subst hp2
    have hbp : brPrefix (c :: piece) = false := by
      cases hbp : brPrefix (c :: piece) with
      | false => rfl
      | true =>
        have hccs : brPrefix (c :: cs) = true := by
          rcases hrel with rfl | ⟨t, rfl⟩
          · exact hbp
          · have hassoc : c :: (piece ++ '<' :: 'b' :: 'r' :: '>' :: t)
                = (c :: piece) ++ '<' :: 'b' :: 'r' :: '>' :: t := rfl
            rw [hassoc]
            exact brPrefix_append _ _ hbp
        obtain ⟨t, ht⟩ := brPrefix_shape _ hccs
        injection ht with ht1 ht2
        exact absurd (hne t ht1 ht2) (by simp)
    refine ⟨c :: piece, rest, ?_, ?_, ?_⟩
    · rw [splitOnBr.eq_3 c cs hne, hsplit]
    · simp [containsBr, hbp, hnobr]
    · rcases hrel with rfl | ⟨t, rfl⟩
      · exact .inl rfl
      · exact .inr ⟨t, rfl⟩

/-- C9: in the flat header section, each row yields the pair at its index
whose key is the trimmed label; for the `"Corporate Name"` label the value is
the joined row text truncated at the first embedded `<br>` line break (so the
value is `<br>`-free and is the prefix of the text before the first `<br>`,
or the whole text when none is embedded), while for every other label the
value is the full joined text of the value cell. -/
theorem extract_corp_details_rowwise (rows : List DetailRow) (i : Nat)
    (row : DetailRow) (h : rows.get? i = some row) :
    ∃ v, (extract_corp_details rows).get? i = some (rustTrim row.label, rustTrim v)
      ∧ (row.label ≠ "Corporate Name" → v = joinAll (row.valueFragments.map rustTrim))
      ∧ (row.label = "Corporate Name" →
          containsBr v.data = false
          ∧ ((joinAll (row.valueFragments.map rustTrim)).data = v.data
              ∨ ∃ t, (joinAll (row.valueFragments.map rustTrim)).data
                  = v.data ++ '<' :: 'b' :: 'r' :: '>' :: t)) := by
  induction rows generalizing i with
  | nil => simp at h
  | cons r rs ih =>
    cases i with
    | zero =>
      simp only [List.get?] at h
      injection h with h
      subst h
      by_cases hl : r.label = "Corporate Name"
      · obtain ⟨p, rest, hsplit, hnobr, hrel⟩ :=
          splitOnBr_head (joinAll (r.valueFragments.map rustTrim)).data
        refine ⟨⟨p⟩, ?_, fun hc => absurd hl hc, fun _ => ⟨hnobr, ?_⟩⟩
        · simp [extract_corp_details, hl, splitBrString, hsplit]
        · rcases hrel with hrel | ⟨t, hrel⟩
          · exact .inl hrel
          · exact .inr ⟨t, hrel⟩
      · refine ⟨joinAll (r.valueFragments.map rustTrim), ?_, fun _ => rfl,
          fun hc => absurd hc hl⟩
        simp [extract_corp_details, hl]
    | succ n =>
      simp only [List.get?] at h
      obtain ⟨v, hv, hother, hcorp⟩ := ih n h
      exact ⟨v, by simpa [extract_corp_details] using hv, hother, hcorp⟩

/-! ## Annual-filings extraction (`extract_annual_filings_details`) -/

/-- One row of the annual-filings section, as the selectors in
`extract_annual_filings_details` see it: the text fragments of the row's
first `<b>` (the label), the text fragments of the row's first
`div.col-sm-9`, and the text fragments of each `<li>` inside that cell. -/
structure FilingRow where
  labelFragments : List String
  valueFragments : List String
  listItemFragments : List (List String)
deriving DecidableEq, Repr

/-- The row key of `extract_annual_filings_details`:
`.text().map(|s| s.trim().to_string()).join("")`. -/
def filingKey (row : FilingRow) : String :=
  joinAll (row.labelFragments.map rustTrim)

/-- The plain-value processing of a non-status row:
`.text().map(|s| s.split(' ').map(|s| s.trim()).join(" ")).join("").trim()`. -/
def processFilingPlain (frags : List String) : String :=
  rustTrim (joinAll (frags.map (fun s => joinSep " " ((splitChar s ' ').map rustTrim))))

/-- One `<li>` of the status row: join the trimmed fragments, split on `'-'`,
and take pieces 0 and 1 as the label/value pair (`text[1]` panics — `none` —
when the item has no hyphen). -/
def parseFilingListItem (frags : List String) : Option (String × String) :=
  match splitChar (joinAll (frags.map rustTrim)) '-' with
  | k :: v :: _ => some (k, v)
  | _ => none

/-- The `Either<String, Vec<HashMap<String, String>>>` value of one
annual-filings row (`Either::Left` is the plain string, `Either::Right` the
list of label/value pairs). -/
inductive FilingValue where
  | plain (s : String)
  | pairs (l : List (String × String))
deriving DecidableEq, Repr

/-- Sequence a fallible map over a list, short-circuiting on the first
`none`: the iteration order of the extraction loops, with a panic aborting
the whole extraction. -/
def mapOption {α β : Type} (f : α → Option β) : List α → Option (List β)
  | [] => some []
  | x :: xs => do
    let b ← f x
    let bs ← mapOption f xs
    pure (b :: bs)

/-- The per-row body of the `for row in rows` loop in
`extract_annual_filings_details`: a non-status label yields the plain
variant, the `"Status of Annual Filings"` label yields one pair per `<li>`
(`none` models the panic on a hyphen-free item). -/
def extractFilingRow (row : FilingRow) : Option (String × FilingValue) :=
  let key := filingKey row
  if key ≠ "Status of Annual Filings" then
    some (rustTrim key, .plain (processFilingPlain row.valueFragments))
  else
    match mapOption parseFilingListItem row.listItemFragments with
    | some ps => some (rustTrim key, .pairs ps)
    | none => none

/-- `extract_annual_filings_details` from `handler.rs`, over the rows of the
section. -/
def extract_annual_filings_details (rows : List FilingRow) :
    Option (List (String × FilingValue)) :=
  mapOption extractFilingRow rows

/-- Auxiliary: `mapOption` succeeds pointwise when every element maps to
`some`. -/
theorem mapOptionSome {α β : Type} (f : α → Option β) (l : List α)
    (h : ∀ a ∈ l, (f a).isSome) :
    ∃ out, mapOption f l = some out ∧ out.length = l.length
      ∧ ∀ i a, l.get? i = some a → out.get? i = f a := by
  induction l with
  | nil =>
    refine ⟨[], rfl, rfl, ?_⟩
    intro i a hi
    simp at hi
  | cons x xs ih =>
    obtain ⟨b, hb⟩ := Option.isSome_iff_exists.mp (h x (by simp))
    obtain ⟨out, hout, hlen, hpt⟩ := ih (fun a ha => h a (by simp [ha]))
    refine ⟨b :: out, ?_, by simp [hlen], ?_⟩
    · simp [mapOption, hb, hout]
    · intro i a hi
      cases i with
      | zero =>
        simp only [List.get?] at hi
        injection hi with hi
        subst hi
        simp [hb]
      | succ n =>
        simp only [List.get?] at hi ⊢
        exact hpt n a hi

/-- C6: in the annual-filings section, every row with a non-status label
yields the plain-string variant; the row labeled `"Status of Annual Filings"`
yields the list-of-pairs variant with exactly one label/value pair per
hyphen-delimited list item (each item's pair is its text split at the first
hyphen), provided every such list item does contain a hyphen (a hyphen-free
item panics in the source). -/
theorem extract_annual_filings_variants (rows : List FilingRow)
    (h : ∀ row ∈ rows, filingKey row = "Status of Annual Filings" →
        ∀ item ∈ row.listItemFragments,
          2 ≤ (splitChar (joinAll (item.map rustTrim)) '-').length) :
    ∃ out, extract_annual_filings_details rows = some out
      ∧ out.length = rows.length
      ∧ ∀ i row, rows.get? i = some row →
          (filingKey row ≠ "Status of Annual Filings" →
            out.get? i = some (rustTrim (filingKey row),
              .plain (processFilingPlain row.valueFragments)))
          ∧ (filingKey row = "Status of Annual Filings" →
            ∃ ps, out.get? i = some (rustTrim (filingKey row), .pairs ps)
              ∧ ps.length = row.listItemFragments.length
              ∧ ∀ j item, row.listItemFragments.get? j = some item →
                  ps.get? j = parseFilingListItem item) := by
  have hitems : ∀ row ∈ rows, filingKey row = "Status of Annual Filings" →
      ∀ item ∈ row.listItemFragments, (parseFilingListItem item).isSome := by
    intro row hr hk item hit
    have hlen := h row hr hk item hit
    rcases hsp : splitChar (joinAll (item.map rustTrim)) '-' with _ | ⟨k, _ | ⟨v, rest⟩⟩
    · rw [hsp] at hlen
      simp at hlen
    · rw [hsp] at hlen
      simp at hlen
    · simp [parseFilingListItem, hsp]
  have hrow : ∀ row ∈ rows, (extractFilingRow row).isSome := by
    intro row hr
    by_cases hk : filingKey row = "Status of Annual Filings"
    · obtain ⟨ps, hps, _, _⟩ := mapOptionSome _ _ (hitems row hr hk)
      simp [extractFilingRow, hk, hps]
    · simp [extractFilingRow, hk]
  obtain ⟨out, hout, hlen, hpt⟩ := mapOptionSome extractFilingRow rows hrow
  refine ⟨out, hout, hlen, ?_⟩
  intro i row hi
  have hoi := hpt i row hi
  have hmem : row ∈ rows := List.get?_mem hi
  constructor
  · intro hk
    rw [hoi]
    simp [extractFilingRow, hk]
  · intro hk
    obtain ⟨ps, hps, hpslen, hpspt⟩ := mapOptionSome _ _ (hitems row hmem hk)
    refine ⟨ps, ?_, hpslen, ?_⟩
    · rw [hoi]
      simp [extractFilingRow, hk, hps]
    · intro j item hj
      exact hpspt j item hj

/-- Concrete annual-filings rows used to witness the C6 theorem. -/
def filingRowsExample : List FilingRow :=
  [ { labelFragments := ["Annual Filing Period"]
      valueFragments := ["June ", "30"]
      listItemFragments := [] }
  , { labelFragments := ["Status of Annual Filings"]
      valueFragments := []
      listItemFragments := [["2023 ", "- Filed"], ["2022 - Not due"]] } ]

/-- Witness for C6: the theorem applied at concrete rows. -/
theorem extract_annual_filings_variants_witness :
    (∀ row ∈ filingRowsExample, filingKey row = "Status of Annual Filings" →
        ∀ item ∈ row.listItemFragments,
          2 ≤ (splitChar (joinAll (item.map rustTrim)) '-').length)
    ∧ ∃ out, extract_annual_filings_details filingRowsExample = some out
        ∧ out.length = filingRowsExample.length
        ∧ ∀ i row, filingRowsExample.get? i = some row →
            (filingKey row ≠ "Status of Annual Filings" →
              out.get? i = some (rustTrim (filingKey row),
                .plain (processFilingPlain row.valueFragments)))
            ∧ (filingKey row = "Status of Annual Filings" →
              ∃ ps, out.get? i = some (rustTrim (filingKey row), .pairs ps)
                ∧ ps.length = row.listItemFragments.length
                ∧ ∀ j item, row.listItemFragments.get? j = some item →
                    ps.get? j = parseFilingListItem item) :=
  ⟨by decide, extract_annual_filings_variants filingRowsExample (by decide)⟩

/-- Concrete corporate-name row used to witness the C9 theorem. -/
def detailRowExample : DetailRow :=
  { label := "Corporate Name", valueFragments := ["ACME LTD.<br>FORMER NAME INC. "] }

/-- Concrete header rows used to witness the C9 theorem. -/
def detailRowsExample : List DetailRow :=
  [detailRowExample, { label := "Corporation Number", valueFragments := ["123", "456 "] }]

/-- Witness for C9: the theorem applied at a concrete row list. -/
theorem extract_corp_details_rowwise_witness :
    detailRowsExample.get? 0 = some detailRowExample
    ∧ ∃ v, (extract_corp_details detailRowsExample).get? 0
          = some (rustTrim detailRowExample.label, rustTrim v)
        ∧ (detailRowExample.label ≠ "Corporate Name"
            → v = joinAll (detailRowExample.valueFragments.map rustTrim))
        ∧ (detailRowExample.label = "Corporate Name"
            → containsBr v.data = false
              ∧ ((joinAll (detailRowExample.valueFragments.map rustTrim)).data = v.data
                ∨ ∃ t, (joinAll (detailRowExample.valueFragments.map rustTrim)).data
                    = v.data ++ '<' :: 'b' :: 'r' :: '>' :: t)) :=
  ⟨rfl, extract_corp_details_rowwise detailRowsExample 0 detailRowExample rfl⟩

/-! ## Browser workflow embedding

The thirtyfour-driven workflows are embedded as trace-producing computations
over an abstract page environment: `PageEnv.found t` says whether the locator
`t` resolves within its wait, `driverOk` whether `WebDriver::new` succeeds,
and `currentUrl` the page location reported by `current_url()`. Each
`query(...).first()` either succeeds or fails the attempt with a locator
timeout, as in the source. -/

/-- One observable page interaction of a workflow attempt. -/
inductive PageAction where
  | goto (url : String)
  | addCookie (name value : String)
  | click (target : String)
  | sendKeys (target text : String)
  | sleepSecs (n : Nat)
  | acquire
  | quit
deriving DecidableEq, Repr

/-- A workflow failure: session acquisition or a locator timeout. -/
inductive WorkflowErr where
  | sessionError
  | locatorTimeout (target : String)
deriving DecidableEq, Repr

/-- A workflow computation: threads the interaction trace, short-circuiting
on the first error (`?` in the source) while keeping the trace so far. -/
def M (α : Type) : Type :=
  List PageAction → Except WorkflowErr α × List PageAction

instance : Monad M where
  pure a := fun tr => (.ok a, tr)
  bind m f := fun tr =>
    match m tr with
    | (.ok a, tr') => f a tr'
    | (.error e, tr') => (.error e, tr')

/-- The abstract page/driver environment of one attempt. -/
structure PageEnv where
  found : String → Bool
  driverOk : Bool
  currentUrl : String
  companyNames : List String

/-- Record one interaction. -/
def emit (a : PageAction) : M Unit := fun tr => (.ok (), tr ++ [a])

/-- `driver.query(target).wait(..).first()`: resolves or times out. -/
def queryFirst (env : PageEnv) (target : String) : M Unit := fun tr =>
  if env.found target then (.ok (), tr) else (.error (.locatorTimeout target), tr)

/-- Resolve a locator and click it. -/
def clickFirst (env : PageEnv) (target : String) : M Unit := do
  queryFirst env target
  emit (.click target)

/-- Resolve a locator and send keys to it. -/
def sendKeysFirst (env : PageEnv) (target text : String) : M Unit := do
  queryFirst env target
  emit (.sendKeys target text)

/-- The `query(..).wait(..).all()` email loop: sends the email to every
matching input (possibly none); `.all()` does not fail the attempt. -/
def sendKeysAll (target text : String) : M Unit :=
  emit (.sendKeys target text)

/-- `get_chrome_driver`: acquires the session or fails the attempt. -/
def acquireDriver (env : PageEnv) : M Unit := fun tr =>
  if env.driverOk then (.ok (), tr ++ [.acquire]) else (.error .sessionError, tr)

/-- XPath of an `<option>` containing the given text. -/
def optionTarget (s : String) : String :=
  "//option[contains(text(), '" ++ s ++ "')]"

/-- XPath of a `<span>` containing the given text. -/
def spanTarget (s : String) : String :=
  "//span[contains(text(), '" ++ s ++ "')]"

/-- XPath of a `<label>` containing the given text. -/
def labelTarget (s : String) : String :=
  "//label[contains(text(), '" ++ s ++ "')]"

/-- XPath of the search query input. -/
def queryStringTarget : String := "//input[@name='QueryString']"

/-- XPath of the advanced-panel toggle. -/
def advancedTarget : String := "//a[@aria-label=' Advanced']"

/-- XPath of the registration-date input. -/
def registrationDateTarget : String := "//input[@name='RegistrationDate']"

/-- XPath of the end-date input of the `Between` operator. -/
def registrationDate2Target : String := "//input[@name='RegistrationDate2']"

/-- XPath of the search submit button. -/
def searchButtonTarget : String :=
  "//div[@class='appBox appBlock registerItemSearch-tabs-criteriaAndButtons-buttonPad appButtonPad appSearchButtonPad appNotReadOnly appIndex1 appChildCount3']/div/button"

/-- XPath of the no-results marker. -/
def noResultsTarget : String := "//div[@id='appSearchNoResults']"

/-- XPath of the 200-rows page-size option. -/
def pageSizeTarget : String :=
  "//div[@class='appSearchPageSize']/select/option[contains(text(), '200')]"

/-- XPath of the email inputs on the product pages. -/
def emailInputTarget : String := "//input[@type='email']"

/-- XPath of the review-step continue button. -/
def appBoxButtonTarget : String :=
  "(//div[@class='appBoxChildren appBlockChildren'])[last()]/button[1]"

/-- XPath of the make-payment button. -/
def submitBtnTarget : String := "//button[@id='submit_btn']"

/-- XPath of the final payment submit button. -/
def submitButtonTarget : String := "//button[@id='submitButton']"

/-- The WebDriver `Key::Enter` code point (`\u{e007}`). -/
def keyEnter : String := String.mk [Char.ofNat 57351]

/-- `goto_search_result_page` from `handler.rs`: the search workflow state
machine. Returns `none` for the no-results outcome, `some url` for a loaded
listing page with page size normalized to 200. -/
def goto_search_result_page (env : PageEnv)
    (params : SearchBusinessRegistryParams) : M (Option String) := do
  emit (.goto "redacted")
  emit (.addCookie "x-catalyst-timezone" "America/Toronto")
  sendKeysFirst env queryStringTarget params.query_word
  clickFirst env advancedTarget
  clickFirst env (optionTarget (registerKeyOptionSerde params.register_type_key))
  emit (.sleepSecs 2)
  match params.business_type_selection with
  | some b => clickFirst env (optionTarget b)
  | none => pure ()
  match params.status_key with
  | some sk => clickFirst env (optionTarget sk.serdeName)
  | none => pure ()
  match params.date_input with
  | some d => sendKeysFirst env registrationDateTarget d
  | none => pure ()
  match params.search_operator with
  | some op => clickFirst env (optionTarget op.serdeName)
  | none => pure ()
  match params.search_operator with
  | some .Between => do
    emit (.sleepSecs 2)
    queryFirst env registrationDate2Target
    emit (.sendKeys registrationDate2Target (params.end_date.getD ""))
    emit (.sendKeys registrationDate2Target keyEnter)
  | _ => pure ()
  clickFirst env searchButtonTarget
  emit (.sleepSecs 5)
  if env.found noResultsTarget then
    pure none
  else do
    clickFirst env pageSizeTarget
    emit (.sleepSecs 15)
    pure (some env.currentUrl)

/-- The payment-instrument fields of `Config` (`config.rs`). -/
structure PaymentConfig where
  card_number : String
  card_name : String
  card_month : String
  card_year : String
  card_cvv : String
deriving DecidableEq, Repr

/-- `RequestBusinessProfileReportParams` from `handler.rs` (the email already
carries the process-wide default when it was omitted). -/
structure RequestBusinessProfileReportParams where
  search_business_params : SearchBusinessRegistryParams
  selected_company : String
  search_product : String
  email : String
deriving DecidableEq, Repr

/-- `goto_payment_page` from `handler.rs`: the payment workflow state
machine, entered only after a company selection. -/
def goto_payment_page (env : PageEnv) (cfg : PaymentConfig)
    (param : RequestBusinessProfileReportParams) : M Unit := do
  clickFirst env (spanTarget param.selected_company)
  clickFirst env (spanTarget "Request Search Products")
  clickFirst env (labelTarget "from the Ministry")
  clickFirst env (labelTarget param.search_product)
  clickFirst env (spanTarget "Continue")
  if param.search_product = "Profile Report" then do
    clickFirst env (labelTarget "Current Report")
    emit (.sleepSecs 5)
    sendKeysAll emailInputTarget param.email
    clickFirst env (spanTarget "Submit")
  else pure ()
  if param.search_product = "Document Copies" then do
    clickFirst env (labelTarget "Select all Documents")
    emit (.sleepSecs 5)
    sendKeysAll emailInputTarget param.email
    clickFirst env (spanTarget "Request Documents")
  else pure ()
  if param.search_product = "Certificate of Status" then do
    sendKeysAll emailInputTarget param.email
    clickFirst env (spanTarget "Submit")
  else pure ()
  clickFirst env (optionTarget "Credit Card")
  emit (.sleepSecs 5)
  clickFirst env appBoxButtonTarget
  clickFirst env submitBtnTarget
  emit (.sleepSecs 5)
  sendKeysFirst env "//input[@name='trnCardOwner']" cfg.card_name
  sendKeysFirst env "//input[@name='trnCardNumber']" cfg.card_number
  sendKeysFirst env "//input[@id='trnExpMonth']" cfg.card_month
  sendKeysFirst env "//input[@id='trnExpYear']" cfg.card_year
  sendKeysFirst env "//input[@name='trnCardCvd']" cfg.card_cvv
  clickFirst env submitButtonTarget

/-- The response of a workflow handler attempt. -/
inductive HandlerResp where
  | okUrl (url : String)
  | okCompanies (names : List String) (url : String)
  | notFound
deriving DecidableEq, Repr

/-- One attempt of `get_payment_page_handler`: acquire the session, run the
search; on no results return 404 (without quitting); otherwise run the
payment workflow, read the URL, quit, and return 200. -/
def paymentAttempt (env : PageEnv) (cfg : PaymentConfig)
    (params : RequestBusinessProfileReportParams) :
    Except WorkflowErr HandlerResp × List PageAction :=
  (do
    acquireDriver env
    let r ← goto_search_result_page env params.search_business_params
    match r with
    | none => pure HandlerResp.notFound
    | some _ => do
      goto_payment_page env cfg params
      emit PageAction.quit
      pure (HandlerResp.okUrl env.currentUrl)) []

/-- One attempt of `get_companies_list_handler`: acquire the session, run the
search; on no results return 404 (without quitting); otherwise collect the
company link texts, read the URL, quit, and return 200. -/
def companiesAttempt (env : PageEnv) (params : SearchBusinessRegistryParams) :
    Except WorkflowErr HandlerResp × List PageAction :=
  (do
    acquireDriver env
    let r ← goto_search_result_page env params
    match r with
    | none => pure HandlerResp.notFound
    | some _ => do
      emit PageAction.quit
      pure (HandlerResp.okCompanies env.companyNames env.currentUrl)) []

deriving instance DecidableEq for Except

/-- Page environment in which every locator resolves; in particular the
no-results marker is present after submission. -/
def envAllFound : PageEnv :=
  { found := fun _ => true
    driverOk := true
    currentUrl := "https://registry.example/results"
    companyNames := ["ACME WIDGETS INC."] }

/-- Page environment in which no locator resolves: the first wait times out. -/
def envNothingFound : PageEnv :=
  { found := fun _ => false
    driverOk := true
    currentUrl := "https://registry.example/results"
    companyNames := [] }

/-- Concrete search parameters. -/
def searchParamsExample : SearchBusinessRegistryParams :=
  { query_word := "Acme"
    register_type_key := none
    business_type_selection := none
    status_key := none
    date_input := none
    search_operator := none
    end_date := none }

/-- Concrete payment configuration. -/
def paymentConfigExample : PaymentConfig :=
  { card_number := "4111111111111111"
    card_name := "A HOLDER"
    card_month := "01"
    card_year := "2030"
    card_cvv := "123" }

/-- Concrete payment-page request. -/
def paymentParamsExample : RequestBusinessProfileReportParams :=
  { search_business_params := searchParamsExample
    selected_company := "ACME WIDGETS INC."
    search_product := "Profile Report"
    email := "user@example.com" }

/-- C1 (refuted; code bug): the session is not released on every exit path of
an attempt. On the no-results exit both handlers return the 404 response with
the acquired session still open — no quit in the trace — and on a
locator-timeout error path the attempt likewise ends without a quit; only the
success path calls `driver.quit()`. -/
theorem attempt_leaks_session_on_non_success_paths :
    (paymentAttempt envAllFound paymentConfigExample paymentParamsExample).1
        = .ok HandlerResp.notFound
    ∧ PageAction.acquire
        ∈ (paymentAttempt envAllFound paymentConfigExample paymentParamsExample).2
    ∧ PageAction.quit
        ∉ (paymentAttempt envAllFound paymentConfigExample paymentParamsExample).2
    ∧ (companiesAttempt envAllFound searchParamsExample).1 = .ok HandlerResp.notFound
    ∧ PageAction.quit ∉ (companiesAttempt envAllFound searchParamsExample).2
    ∧ (paymentAttempt envNothingFound paymentConfigExample paymentParamsExample).1
        = .error (.locatorTimeout queryStringTarget)
    ∧ PageAction.acquire
        ∈ (paymentAttempt envNothingFound paymentConfigExample paymentParamsExample).2
    ∧ PageAction.quit
        ∉ (paymentAttempt envNothingFound paymentConfigExample paymentParamsExample).2 := by
  decide

/-- Auxiliary: two strings differ when a character of the first string's
fixed prefix differs from the other string at that position, whatever suffix
follows the prefix. -/
theorem prefixCharDiffNe (p q s : String) (i : Nat) (hi : i < p.data.length)
    (h : p.data.get? i ≠ q.data.get? i) : p ++ s ≠ q := by
  intro he
  apply h
  have hdata := congrArg String.data he
  rw [String.data_append] at hdata
  rw [← hdata, List.get?_append hi]

/-- Auxiliary: no option locator equals the page-size locator. -/
theorem pageSize_ne_optionTarget (s : String) : pageSizeTarget ≠ optionTarget s := by
  intro he
  have hopt : optionTarget s = "//option[contains(text(), '" ++ (s ++ "')]") := by
    rw [optionTarget, String.append_assoc]
  rw [hopt] at he
  exact prefixCharDiffNe "//option[contains(text(), '" pageSizeTarget (s ++ "')]") 2
    (by decide) (by decide) he.symm

/-- Auxiliary: no option locator equals the payment-entry span locator. -/
theorem spanProducts_ne_optionTarget (s : String) :
    spanTarget "Request Search Products" ≠ optionTarget s := by
  intro he
  have hopt : optionTarget s = "//option[contains(text(), '" ++ (s ++ "')]") := by
    rw [optionTarget, String.append_assoc]
  rw [hopt] at he
  exact prefixCharDiffNe "//option[contains(text(), '"
    (spanTarget "Request Search Products") (s ++ "')]") 2 (by decide) (by decide) he.symm

/-- C3: in any attempt in which the driver starts, every locator resolves,
and (hence) the no-results marker is detected after submission, the search
workflow returns the no-results outcome, the page-size normalization click
never happens, and the payment-page handler returns the not-found response
without ever entering the payment workflow. -/
theorem no_results_short_circuits (env : PageEnv) (cfg : PaymentConfig)
    (params : RequestBusinessProfileReportParams)
    (hf : env.found = fun _ => true) (hd : env.driverOk = true) :
    (goto_search_result_page env params.search_business_params []).1 = .ok none
    ∧ PageAction.click pageSizeTarget
        ∉ (goto_search_result_page env params.search_business_params []).2
    ∧ (paymentAttempt env cfg params).1 = .ok HandlerResp.notFound
    ∧ PageAction.click (spanTarget "Request Search Products")
        ∉ (paymentAttempt env cfg params).2 := by
  obtain ⟨⟨q, rk, bs, sk, di, so, ed⟩, comp, prod, email⟩ := params
  obtain ⟨f, dok, url, names⟩ := env
  have hf' : f = fun _ => true := hf
  have hd' : dok = true := hd
  subst hf'
  subst hd'
  rcases bs with _ | b <;> rcases sk with _ | s <;> rcases di with _ | d <;>
    rcases so with _ | op <;> (try cases op) <;>
    refine ⟨rfl, ?_, rfl, ?_⟩ <;>
    simp +decide [goto_search_result_page, paymentAttempt, acquireDriver,
      clickFirst, sendKeysFirst, queryFirst, emit, instMonadM, Bind.bind, Pure.pure,
      pageSize_ne_optionTarget, spanProducts_ne_optionTarget]

/-- Witness for C3: the theorem applied at a concrete environment and request. -/
theorem no_results_short_circuits_witness :
    (envAllFound.found = fun _ => true) ∧ envAllFound.driverOk = true
    ∧ ((goto_search_result_page envAllFound
          paymentParamsExample.search_business_params []).1 = .ok none
      ∧ PageAction.click pageSizeTarget
          ∉ (goto_search_result_page envAllFound
              paymentParamsExample.search_business_params []).2
      ∧ (paymentAttempt envAllFound paymentConfigExample paymentParamsExample).1
          = .ok HandlerResp.notFound
      ∧ PageAction.click (spanTarget "Request Search Products")
          ∉ (paymentAttempt envAllFound paymentConfigExample paymentParamsExample).2) :=
  ⟨rfl, rfl, no_results_short_circuits envAllFound paymentConfigExample
    paymentParamsExample rfl rfl⟩

/-- C5: `end_date` is consulted only when the search operator is `Between`:
with an absent or non-`Between` operator, two parameter values differing only
in `end_date` drive identical page interactions and produce the same outcome
in every environment. -/
theorem end_date_ignored_without_between (env : PageEnv) (q : String)
    (rk : Option RegisterType) (bs : Option String) (sk : Option StatusKey)
    (di : Option String) (so : Option SearchOperator) (e1 e2 : Option String)
    (hso : so ≠ some SearchOperator.Between) :
    goto_search_result_page env
        { query_word := q, register_type_key := rk, business_type_selection := bs,
          status_key := sk, date_input := di, search_operator := so,
          end_date := e1 } []
      = goto_search_result_page env
        { query_word := q, register_type_key := rk, business_type_selection := bs,
          status_key := sk, date_input := di, search_operator := so,
          end_date := e2 } [] := by
  rcases so with _ | op
  · rfl
  · cases op with
    | On => rfl
    | Before => rfl
    | FromOrOn => rfl
    | Between => exact absurd rfl hso

/-- Witness for C5: the theorem applied at a concrete environment and fields. -/
theorem end_date_ignored_without_between_witness :
    (some SearchOperator.On ≠ some SearchOperator.Between)
    ∧ goto_search_result_page envAllFound
        { query_word := "Acme", register_type_key := none,
          business_type_selection := none, status_key := none, date_input := none,
          search_operator := some SearchOperator.On,
          end_date := some "January 1, 2021" } []
      = goto_search_result_page envAllFound
        { query_word := "Acme", register_type_key := none,
          business_type_selection := none, status_key := none, date_input := none,
          search_operator := some SearchOperator.On, end_date := none } [] :=
  ⟨by decide, end_date_ignored_without_between envAllFound "Acme" none none none none
    (some SearchOperator.On) (some "January 1, 2021") none (by decide)⟩

/-! ## Retry/backoff driver (`tryhard` usage in `handler.rs`) -/

/-- The delay slept before retry number `n` (`n ≥ 1`) under
`exponential_backoff(1s)` with `max_delay(10s)`: `min(2^(n-1), 10)` seconds. -/
def backoffDelay (n : Nat) : Nat := min (2 ^ (n - 1)) 10

/-- The retry loop of `tryhard::retry_fn(f)`: run attempt `i`; on success
return immediately; on failure, if no retries remain surface that error, else
sleep the backoff delay and retry with one fewer retry remaining. Returns the
result, the index of the last attempt executed, and the list of delays
slept. -/
def retryRun {E A : Type} (attempt : Nat → Except E A) :
    Nat → Nat → Except E A × Nat × List Nat
  | i, 0 =>
    match attempt i with
    | .ok a => (.ok a, i, [])
    | .error e => (.error e, i, [])
  | i, r + 1 =>
    match attempt i with
    | .ok a => (.ok a, i, [])
    | .error _ =>
      let res := retryRun attempt (i + 1) r
      (res.1, res.2.1, backoffDelay i :: res.2.2)

/-- The configuration every handler passes to tryhard: `.retries(10)` — one
initial attempt plus up to ten retries — with `max_delay(10s)` and
`exponential_backoff(1s)`; attempts are numbered from 1. -/
def tryhardRetry {E A : Type} (attempt : Nat → Except E A) :
    Except E A × Nat × List Nat :=
  retryRun attempt 1 10

/-- A workflow whose attempt `i` always fails with error `i`. -/
def alwaysFailAttempt : Nat → Except Nat Unit := fun i => .error i

/-- Auxiliary: when all attempts from `i` through `i + r` fail, the loop runs
them all and surfaces the last error. -/
theorem retryRun_all_fail {E A : Type} (f : Nat → Except E A) :
    ∀ r i, (∀ j, i ≤ j → j ≤ i + r → (f j).isOk = false) →
      retryRun f i r
        = (f (i + r), i + r, (List.range r).map (fun t => backoffDelay (i + t))) := by
  intro r
  induction r with
  | zero =>
    intro i h
    have hi := h i le_rfl (by omega)
    cases hf : f i with
    | ok a =>
      rw [hf] at hi
      simp [Except.isOk, Except.toBool] at hi
    | error e => simp [retryRun, hf]
  | succ r ih =>
    intro i h
    have hi := h i le_rfl (by omega)
    cases hf : f i with
    | ok a =>
      rw [hf] at hi
      simp [Except.isOk, Except.toBool] at hi
    | error e =>
      have hrec := ih (i + 1) (fun j hj1 hj2 => h j (by omega) (by omega))
      have hidx : i + 1 + r = i + (r + 1) := by omega
      simp only [retryRun, hf, hrec, hidx, Prod.mk.injEq]
      refine ⟨trivial, trivial, ?_⟩
      rw [List.range_succ_eq_map, List.map_cons, List.map_map]
      congr 1
      apply List.map_congr_left
      intro t ht
      simp only [Function.comp_apply]
      congr 1
      omega

/-- Auxiliary: when attempt `k` within the budget is the first success, the
loop returns its value after exactly the attempts `i..k`. -/
theorem retryRun_first_success {E A : Type} (f : Nat → Except E A) :
    ∀ r i k a, i ≤ k → k ≤ i + r → f k = .ok a →
      (∀ j, i ≤ j → j < k → (f j).isOk = false) →
      retryRun f i r
        = (.ok a, k, (List.range (k - i)).map (fun t => backoffDelay (i + t))) := by
  intro r
  induction r with
  | zero =>
    intro i k a hik hki hk hfail
    have hk0 : k = i := by omega
    subst hk0
    simp [retryRun, hk]
  | succ r ih =>
    intro i k a hik hki hk hfail
    by_cases hek : k = i
    · subst hek
      simp [retryRun, hk]
    · have hi := hfail i le_rfl (by omega)
      cases hf : f i with
      | ok b =>
        rw [hf] at hi
        simp [Except.isOk, Except.toBool] at hi
      | error e =>
        have hrec := ih (i + 1) k a (by omega) (by omega) hk
          (fun j hj1 hj2 => hfail j (by omega) hj2)
        simp only [retryRun, hf, hrec, Prod.mk.injEq]
        refine ⟨trivial, trivial, ?_⟩
        have hki2 : k - i = (k - (i + 1)) + 1 := by omega
        rw [hki2, List.range_succ_eq_map, List.map_cons, List.map_map]
        congr 1
        apply List.map_congr_left
        intro t ht
        simp only [Function.comp_apply]
        congr 1
        omega

/-- C2 counterexample: with a workflow whose every attempt fails, the driver
executes 11 attempts — one initial attempt plus the 10 configured retries —
not 10, surfacing the 11th attempt's error. -/
theorem tryhardRetry_eleven_attempts_not_ten :
    (tryhardRetry alwaysFailAttempt).2.1 = 11
    ∧ (tryhardRetry alwaysFailAttempt).2.1 ≠ 10
    ∧ (tryhardRetry alwaysFailAttempt).1 = .error 11 := by
  decide

/-- C2 (amended): when every attempt fails the driver performs exactly 11
attempts (the initial attempt plus the 10 configured retries) and surfaces
the last attempt's result; when attempt `k ≤ 11` is the first to succeed it
returns that value after exactly `k` attempts; the delays between attempts
grow exponentially from the 1-second base, capped at the 10-second
ceiling (`min (2^(n-1)) 10` before retry `n`). -/
theorem tryhardRetry_attempt_count {E A : Type} (f : Nat → Except E A) :
    ((∀ j, 1 ≤ j → j ≤ 11 → (f j).isOk = false) →
      tryhardRetry f = (f 11, 11, [1, 2, 4, 8, 10, 10, 10, 10, 10, 10]))
    ∧ (∀ k a, 1 ≤ k → k ≤ 11 → f k = .ok a →
        (∀ j, 1 ≤ j → j < k → (f j).isOk = false) →
        tryhardRetry f
          = (.ok a, k, (List.range (k - 1)).map (fun t => backoffDelay (1 + t)))) := by
  constructor
  · intro h
    have hrun := retryRun_all_fail f 10 1 (fun j hj1 hj2 => h j hj1 (by omega))
    rw [tryhardRetry, hrun]
    have hds : (List.range 10).map (fun t => backoffDelay (1 + t))
        = [1, 2, 4, 8, 10, 10, 10, 10, 10, 10] := by decide
    rw [hds]
  · intro k a h1 h11 hk hfail
    exact retryRun_first_success f 10 1 k a h1 (by omega) hk hfail

/-- A workflow whose attempt 3 is the first to succeed. -/
def succeedsAtThree : Nat → Except Nat Nat :=
  fun i => if i = 3 then .ok 30 else .error i

/-- Witness for C2: the success branch of the theorem applied to a workflow
succeeding on attempt 3 — the driver returns after exactly 3 attempts with
the two exponential delays. -/
theorem tryhardRetry_attempt_count_witness :
    ((1:Nat) ≤ 3 ∧ (3:Nat) ≤ 11 ∧ succeedsAtThree 3 = .ok 30)
    ∧ tryhardRetry succeedsAtThree
        = (.ok 30, 3, (List.range (3 - 1)).map (fun t => backoffDelay (1 + t))) :=
  ⟨⟨by decide, by decide, by decide⟩,
    (tryhardRetry_attempt_count succeedsAtThree).2 3 30 (by decide) (by decide)
      (by decide)
      (by
        intro j hj1 hj2
        have hj : j = 1 ∨ j = 2 := by omega
        rcases hj with rfl | rfl <;> decide)⟩

/-! ## Listing pagination (`Scrap::extract_data`) -/

/-- One fetched legacy listing page as the selectors see it: the raw result
rows (`div.col-md-11`) and whether an `a[rel="next"]` link is present.
`pages n` stands for the parsed document fetched with page parameter
`p = n`. -/
structure ListingPage where
  rows : List ListingRawRow
  hasNext : Bool
deriving DecidableEq, Repr

/-- `usize::MAX` on the 64-bit host: the effective cap used when
`num_of_records` is `None` (`num_of_records.unwrap_or(usize::MAX)`). -/
def usizeMax : Nat := 2 ^ 64 - 1

/-- Outcome of the pagination loop under a fuel bound. -/
inductive ExtractOutcome where
  | diverge
  | panic
  | done (data : List ListingRow) (pagesFetched : Nat)
deriving DecidableEq, Repr

/-- The parsed rows of page `m` (`none` models a row panicking the loop). -/
def pageRows (pages : Nat → ListingPage) (m : Nat) : Option (List ListingRow) :=
  mapOption parseListingRow (pages m).rows

/-- The `while next_page && data.len() < num_of_records.unwrap_or(usize::MAX)`
loop of `Scrap::extract_data`: fetch page `page_number`, parse and append its
rows, set `next_page` from the next link, and increment the page parameter by
one. `fuel` bounds the iterations modelled; `diverge` means the loop was
still running when the fuel ran out. -/
def extractLoop (pages : Nat → ListingPage) (cap : Nat) :
    List ListingRow → Nat → Bool → Nat → ExtractOutcome
  | data, page_number, next_page, 0 =>
    if next_page = true ∧ data.length < cap then .diverge
    else .done data page_number
  | data, page_number, next_page, fuel + 1 =>
    if next_page = true ∧ data.length < cap then
      match pageRows pages page_number with
      | none => .panic
      | some rows =>
        extractLoop pages cap (data ++ rows) (page_number + 1)
          (pages page_number).hasNext fuel
    else
      .done data page_number

/-- `Scrap::extract_data` from `handler.rs`: run the pagination loop from an
empty accumulator, page 0, and `next_page = true`. -/
def extract_data (pages : Nat → ListingPage) (num_of_records : Option Nat)
    (fuel : Nat) : ExtractOutcome :=
  extractLoop pages (num_of_records.getD usizeMax) [] 0 true fuel

/-- Concatenated parsed rows of pages `0 .. m-1`, in fetch order. -/
def rowsThrough (pages : Nat → ListingPage) : Nat → Option (List ListingRow)
  | 0 => some []
  | m + 1 => do
    let acc ← rowsThrough pages m
    let r ← pageRows pages m
    pure (acc ++ r)

/-- The loop's exact stopping condition over the page sequence: the data is
the parsed rows of the `m` fetched pages; before each fetched page the
continue condition held (the previous page had a next link — vacuous before
page 0 — and the collected count was below the cap); after the last it does
not. -/
def stopsAt (pages : Nat → ListingPage) (capN : Nat) (data : List ListingRow)
    (m : Nat) : Prop :=
  rowsThrough pages m = some data
  ∧ (∀ i, i < m → ((rowsThrough pages i).getD []).length < capN
      ∧ (i = 0 ∨ (pages (i - 1)).hasNext = true))
  ∧ ¬((m = 0 ∨ (pages (m - 1)).hasNext = true) ∧ data.length < capN)

/-- A page sequence that always advertises a next link but yields no rows. -/
def adversarialPages : Nat → ListingPage := fun _ => { rows := [], hasNext := true }

/-- C8 counterexample: with a record cap of 1 and pages that always carry a
next link but no rows, the extraction loop never terminates — no fuel bound
suffices — refuting the claim's unconditional termination. -/
theorem extract_data_not_terminating :
    ¬ ∃ fuel, extract_data adversarialPages (some 1) fuel ≠ ExtractOutcome.diverge := by
  have hall : ∀ fuel p, extractLoop adversarialPages 1 [] p true fuel
      = ExtractOutcome.diverge := by
    intro fuel
    induction fuel with
    | zero =>
      intro p
      simp [extractLoop]
    | succ fuel ih =>
      intro p
      simpa [extractLoop, pageRows, adversarialPages, mapOption] using ih (p + 1)
  rintro ⟨fuel, hne⟩
  exact hne (hall fuel 0)

/-- Auxiliary: when a prefix of pages parses, every shorter prefix does. -/
theorem rowsThrough_some_below (pages : Nat → ListingPage) :
    ∀ m i, i ≤ m → ∀ d, rowsThrough pages m = some d →
      ∃ di, rowsThrough pages i = some di := by
  intro m
  induction m with
  | zero =>
    intro i hi d hd
    have hi0 : i = 0 := by omega
    subst hi0
    exact ⟨[], rfl⟩
  | succ m ih =>
    intro i hi d hd
    by_cases him : i = m + 1
    · subst him
      exact ⟨d, hd⟩
    · have hm : ∃ dm, rowsThrough pages m = some dm := by
        simp only [rowsThrough, Option.bind_eq_bind, Option.bind_eq_some] at hd
        obtain ⟨dm, hdm, _⟩ := hd
        exact ⟨dm, hdm⟩
      obtain ⟨dm, hdm⟩ := hm
      exact ih i (by omega) dm hdm

/-- Auxiliary: decompose a parsed prefix of `m + 1` pages. -/
theorem rowsThrough_succ_decomp (pages : Nat → ListingPage) (m : Nat)
    (d : List ListingRow) (hd : rowsThrough pages (m + 1) = some d) :
    ∃ r dm, pageRows pages m = some r ∧ rowsThrough pages m = some dm
      ∧ d = dm ++ r := by
  simp only [rowsThrough, Option.bind_eq_bind, Option.bind_eq_some, Option.pure_def,
    Option.some.injEq] at hd
  obtain ⟨dm, hdm, r, hr, hd⟩ := hd
  exact ⟨r, dm, hr, hdm, hd.symm⟩

/-- Auxiliary: whatever state the loop is started from, a `done` result is
exactly a state whose pages all parsed, whose intermediate states satisfied
the continue condition, and whose final state does not. -/
theorem extractLoop_done_char (pages : Nat → ListingPage) (capN : Nat) :
    ∀ fuel p0 d0 n0 data m,
      rowsThrough pages p0 = some d0 →
      (n0 = true ↔ (p0 = 0 ∨ (pages (p0 - 1)).hasNext = true)) →
      extractLoop pages capN d0 p0 n0 fuel = .done data m →
      p0 ≤ m ∧ rowsThrough pages m = some data
        ∧ (∀ i, p0 ≤ i → i < m → ((rowsThrough pages i).getD []).length < capN
            ∧ (i = 0 ∨ (pages (i - 1)).hasNext = true))
        ∧ ¬((m = 0 ∨ (pages (m - 1)).hasNext = true) ∧ data.length < capN) := by
  intro fuel
  induction fuel with
  | zero =>
    intro p0 d0 n0 data m hrt hn hdone
    by_cases hc : n0 = true ∧ d0.length < capN
    · simp [extractLoop, hc] at hdone
    · simp only [extractLoop, if_neg hc, ExtractOutcome.done.injEq] at hdone
      obtain ⟨rfl, rfl⟩ := hdone
      refine ⟨le_rfl, hrt, fun i hi1 hi2 => absurd (by omega : i < i) (by omega), ?_⟩
      intro hcon
      exact hc ⟨hn.mpr hcon.1, hcon.2⟩
  | succ fuel ih =>
    intro p0 d0 n0 data m hrt hn hdone
    by_cases hc : n0 = true ∧ d0.length < capN
    · simp only [extractLoop, if_pos hc] at hdone
      cases hpr : pageRows pages p0 with
      | none =>
        rw [hpr] at hdone
        simp at hdone
      | some rows =>
        rw [hpr] at hdone
        have hrt2 : rowsThrough pages (p0 + 1) = some (d0 ++ rows) := by
          simp [rowsThrough, hrt, hpr]
        have hn2 : ((pages p0).hasNext = true
            ↔ (p0 + 1 = 0 ∨ (pages (p0 + 1 - 1)).hasNext = true)) := by
          simp
        obtain ⟨hm, hdata, hmid, hstop⟩ := ih (p0 + 1) (d0 ++ rows) _ data m hrt2 hn2 hdone
        refine ⟨by omega, hdata, ?_, hstop⟩
        intro i hi1 hi2
        by_cases hip : i = p0
        · subst hip
          refine ⟨?_, hn.mp hc.1⟩
          rw [hrt]
          exact hc.2
        · exact hmid i (by omega) hi2
    · simp only [extractLoop, if_neg hc, ExtractOutcome.done.injEq] at hdone
      obtain ⟨rfl, rfl⟩ := hdone
      refine ⟨le_rfl, hrt, fun i hi1 hi2 => absurd (by omega : i < i) (by omega), ?_⟩
      intro hcon
      exact hc ⟨hn.mpr hcon.1, hcon.2⟩

/-- Auxiliary: from any consistent state, a state satisfying the stopping
characterization is reached once the fuel covers the remaining pages. -/
theorem extractLoop_reaches (pages : Nat → ListingPage) (capN : Nat) :
    ∀ fuel p0 d0 n0 data m,
      rowsThrough pages p0 = some d0 →
      (n0 = true ↔ (p0 = 0 ∨ (pages (p0 - 1)).hasNext = true)) →
      p0 ≤ m → m - p0 ≤ fuel →
      rowsThrough pages m = some data →
      (∀ i, p0 ≤ i → i < m → ((rowsThrough pages i).getD []).length < capN
          ∧ (i = 0 ∨ (pages (i - 1)).hasNext = true)) →
      ¬((m = 0 ∨ (pages (m - 1)).hasNext = true) ∧ data.length < capN) →
      extractLoop pages capN d0 p0 n0 fuel = .done data m := by
  intro fuel
  induction fuel with
  | zero =>
    intro p0 d0 n0 data m hrt hn hpm hfm hdata hmid hstop
    have hm0 : m = p0 := by omega
    subst hm0
    have hdd : d0 = data := by
      rw [hrt] at hdata
      injection hdata
    subst hdd
    have hc : ¬(n0 = true ∧ d0.length < capN) := by
      intro hcc
      exact hstop ⟨hn.mp hcc.1, hcc.2⟩
    simp [extractLoop, hc]
  | succ fuel ih =>
    intro p0 d0 n0 data m hrt hn hpm hfm hdata hmid hstop
    by_cases hmp : m = p0
    · subst hmp
      have hdd : d0 = data := by
        rw [hrt] at hdata
        injection hdata
      subst hdd
      have hc : ¬(n0 = true ∧ d0.length < capN) := by
        intro hcc
        exact hstop ⟨hn.mp hcc.1, hcc.2⟩
      simp [extractLoop, hc]
    · have hcont := hmid p0 le_rfl (by omega)
      have hlen : d0.length < capN := by
        have := hcont.1
        rw [hrt] at this
        simpa using this
      have hc : n0 = true ∧ d0.length < capN := ⟨hn.mpr hcont.2, hlen⟩
      simp only [extractLoop, if_pos hc]
      obtain ⟨dnext, hdnext⟩ :=
        rowsThrough_some_below pages m (p0 + 1) (by omega) data hdata
      obtain ⟨r, dm, hr, hdm, hsplit⟩ := rowsThrough_succ_decomp pages p0 dnext hdnext
      have hdmd : dm = d0 := by
        rw [hrt] at hdm
        injection hdm with h
        exact h.symm
      have hdnext2 : rowsThrough pages (p0 + 1) = some (d0 ++ r) := by
        rw [hdnext, hsplit, hdmd]
      rw [hr]
      exact ih (p0 + 1) (d0 ++ r) ((pages p0).hasNext) data m hdnext2 (by simp)
        (by omega) (by omega) hdata
        (fun i hi1 hi2 => hmid i (by omega) hi2) hstop

/-- C8 (amended): with caller-supplied cap `n` (or none), the extraction
returns exactly when the loop's stopping characterization holds: it stops
fetching further pages exactly when the most recently parsed page has no next
link or the collected records reached the cap (`usize::MAX` when no cap is
supplied, so without a cap it stops only on an absent next link), having
incremented the page parameter by one per fetched page; it terminates
(given enough fuel) precisely for page sequences that eventually reach that
stopping condition, and the counterexample shows it loops forever
otherwise. -/
theorem extract_data_stops_iff (pages : Nat → ListingPage) (cap : Option Nat)
    (fuel : Nat) (data : List ListingRow) (m : Nat) :
    (extract_data pages cap fuel = .done data m →
      stopsAt pages (cap.getD usizeMax) data m)
    ∧ (stopsAt pages (cap.getD usizeMax) data m → m ≤ fuel →
      extract_data pages cap fuel = .done data m) := by
  constructor
  · intro h
    obtain ⟨hm, hdata, hmid, hstop⟩ := extractLoop_done_char pages (cap.getD usizeMax)
      fuel 0 [] true data m rfl (by simp) h
    exact ⟨hdata, fun i hi => hmid i (by omega) hi, hstop⟩
  · rintro ⟨hdata, hmid, hstop⟩ hf
    exact extractLoop_reaches pages (cap.getD usizeMax) fuel 0 [] true data m rfl
      (by simp) (by omega) (by omega) hdata (fun i hi1 hi2 => hmid i hi2) hstop

/-- A concrete two-page sequence: page 0 links to page 1; page 1 is last. -/
def pagesExample : Nat → ListingPage := fun n =>
  if n = 0 then { rows := [listingRowExample], hasNext := true }
  else if n = 1 then { rows := [listingRowExample], hasNext := false }
  else { rows := [], hasNext := false }

/-- The rows collected over the two pages. -/
def listingDataExample : List ListingRow :=
  [listingRowExampleParsed, listingRowExampleParsed]

/-- Witness for C8: both directions of the theorem applied to the concrete
two-page sequence with no cap — the loop fetches exactly the two pages. -/
theorem extract_data_stops_iff_witness :
    stopsAt pagesExample (Option.getD none usizeMax) listingDataExample 2
    ∧ extract_data pagesExample none 2 = .done listingDataExample 2
    ∧ stopsAt pagesExample (Option.getD none usizeMax) listingDataExample 2 :=
  ⟨by unfold stopsAt; decide,
    (extract_data_stops_iff pagesExample none 2 listingDataExample 2).2
      (by unfold stopsAt; decide) (by decide),
    (extract_data_stops_iff pagesExample none 2 listingDataExample 2).1 (by decide)⟩
